import Mathlib

/-!
Verification of the transfinite-interpolation (TFI) mesh-generation kernel
from `02_Mesh_generation/lecture_notebooks/2_Quad_mesh_TFI_intro.ipynb`.

The notebook's cell 8 discretizes `xi = np.linspace(0.0, 1.0, num=NX)`,
`eta = np.linspace(0.0, 1.0, num=NZ)`, initializes `X = np.zeros((NX,NZ))`,
`Z = np.zeros((NX,NZ))`, and in a double loop over `i in range(NX)`,
`j in range(NZ)` evaluates the four boundary curves `Xb, Xt, Xl, Xr`
(each returning an `(x, z)` pair) and assigns `X[i,j]` and `Z[i,j]`
by the Gordon-Hall blending formula.

We embed real arithmetic as exact rational arithmetic (`ℚ`); the source
formulas involve only `+ - *` and division by `n - 1`, so the embedding is
exact.
-/

/-- A parametric boundary curve: a callable taking one scalar parameter and
returning a two-component `(x, z)` coordinate, as the notebook's
`Xb, Xt, Xl, Xr`. -/
def Curve : Type := ℚ → ℚ × ℚ

/-- Entry `i` of `np.linspace(0.0, 1.0, num=n)`: for `n ≥ 2` the points are
`i / (n-1)`; `np.linspace(0.0, 1.0, num=1)` is the one-point array `[0.0]`
(and for `n = 0` no entry is ever read). -/
def linspace01 (n i : ℕ) : ℚ :=
  if n ≤ 1 then 0 else (i : ℚ) / ((n : ℚ) - 1)

/-- The `X[i,j]` assignment of cell 8, as a function of the four curves and
the node parameters `Xi = xi[i]`, `Eta = eta[j]`:
`X[i,j] = (1-Eta)*xb[0] + Eta*xt[0] + (1-Xi)*xl[0] + Xi*xr[0]
        - (Xi*Eta*xt1[0] + Xi*(1-Eta)*xb1[0] + Eta*(1-Xi)*xt0[0]
        + (1-Xi)*(1-Eta)*xb0[0])` where `xb = Xb(Xi)`, `xb0 = Xb(0)`,
`xb1 = Xb(1)`, `xt = Xt(Xi)`, `xt0 = Xt(0)`, `xt1 = Xt(1)`, `xl = Xl(Eta)`,
`xr = Xr(Eta)`. -/
def tfiX (Xb Xt Xl Xr : Curve) (Xi Eta : ℚ) : ℚ :=
  let xb := Xb Xi
  let xb0 := Xb 0
  let xb1 := Xb 1
  let xt := Xt Xi
  let xt0 := Xt 0
  let xt1 := Xt 1
  let xl := Xl Eta
  let xr := Xr Eta
  (1-Eta) * xb.1 + Eta * xt.1 + (1-Xi) * xl.1 + Xi * xr.1
    - (Xi * Eta * xt1.1 + Xi * (1-Eta) * xb1.1 + Eta * (1-Xi) * xt0.1
       + (1-Xi) * (1-Eta) * xb0.1)

/-- The `Z[i,j]` assignment of cell 8 (same blending formula applied to the
second component of each curve value). -/
def tfiZ (Xb Xt Xl Xr : Curve) (Xi Eta : ℚ) : ℚ :=
  let xb := Xb Xi
  let xb0 := Xb 0
  let xb1 := Xb 1
  let xt := Xt Xi
  let xt0 := Xt 0
  let xt1 := Xt 1
  let xl := Xl Eta
  let xr := Xr Eta
  (1-Eta) * xb.2 + Eta * xt.2 + (1-Xi) * xl.2 + Xi * xr.2
    - (Xi * Eta * xt1.2 + Xi * (1-Eta) * xb1.2 + Eta * (1-Xi) * xt0.2
       + (1-Xi) * (1-Eta) * xb0.2)

/-- The `(x, z)` pair written to mesh position `(i, j)`. -/
def tfiNode (Xb Xt Xl Xr : Curve) (Xi Eta : ℚ) : ℚ × ℚ :=
  (tfiX Xb Xt Xl Xr Xi Eta, tfiZ Xb Xt Xl Xr Xi Eta)

/-- The final content of `X[i,j]` after the loop: the per-node value at
`xi[i] = linspace01 nx i`, `eta[j] = linspace01 nz j`. -/
def meshX (Xb Xt Xl Xr : Curve) (nx nz : ℕ) (i j : ℕ) : ℚ :=
  tfiX Xb Xt Xl Xr (linspace01 nx i) (linspace01 nz j)

/-- The final content of `Z[i,j]` after the loop. -/
def meshZ (Xb Xt Xl Xr : Curve) (nx nz : ℕ) (i j : ℕ) : ℚ :=
  tfiZ Xb Xt Xl Xr (linspace01 nx i) (linspace01 nz j)

/-- The whole mesh as a list of rows: row `i` holds the `(X[i,j], Z[i,j])`
pairs for `j = 0 .. nz-1`. -/
def meshList (Xb Xt Xl Xr : Curve) (nx nz : ℕ) : List (List (ℚ × ℚ)) :=
  (List.range nx).map (fun i =>
    (List.range nz).map (fun j =>
      tfiNode Xb Xt Xl Xr (linspace01 nx i) (linspace01 nz j)))

/-! ### Imperative model of the loop

Cell 8 initializes `X` and `Z` to zeros and fills them by destructive
assignment inside the nested loop.  We model each array as a function
`ℕ × ℕ → ℚ` updated by `Function.update`, and the loop as a left fold over
the row-major list of index pairs.  Folding over an arbitrary order of index
pairs lets us speak about order independence. -/

/-- One pass of writes: for each index pair `p` in `ord` (in order), overwrite
position `p` of the accumulator array with `f p`. -/
def writeAll (f : ℕ × ℕ → ℚ) (ord : List (ℕ × ℕ)) (A : ℕ × ℕ → ℚ) :
    ℕ × ℕ → ℚ :=
  ord.foldl (fun B p => Function.update B p (f p)) A

/-- The row-major order in which cell 8's nested loop visits the index pairs
`(i, j)`. -/
def rowMajor (nx nz : ℕ) : List (ℕ × ℕ) :=
  (List.range nx).flatMap (fun i => (List.range nz).map (fun j => (i, j)))

/-- The imperative loop of cell 8: both accumulator arrays start as zeros
(`np.zeros((NX,NZ))`) and are filled in row-major order; the result is the
pair of final arrays `(X, Z)`. -/
def tfiLoop (Xb Xt Xl Xr : Curve) (nx nz : ℕ) :
    (ℕ × ℕ → ℚ) × (ℕ × ℕ → ℚ) :=
  (writeAll (fun p => meshX Xb Xt Xl Xr nx nz p.1 p.2) (rowMajor nx nz)
      (fun _ => 0),
   writeAll (fun p => meshZ Xb Xt Xl Xr nx nz p.1 p.2) (rowMajor nx nz)
      (fun _ => 0))

/-! ### Fallible model

The notebook's curves are ordinary Python callables; a curve that is
undefined or raises at a sample point aborts the whole cell with an
exception, so no mesh is produced.  We model a possibly-failing curve as
`ℚ → Option (ℚ × ℚ)` and the computation in the `Option` monad: the node
computation performs exactly the eight curve evaluations of the loop body,
and any failure makes the whole result `none`. -/

/-- The loop body of cell 8 with possibly-failing curves: evaluate
`Xb` at `Xi`, `0`, `1`, `Xt` at `Xi`, `0`, `1`, `Xl` and `Xr` at `Eta`
(the eight evaluations of the source), then combine by the blending
formula; any failed evaluation aborts. -/
def tfiNodeE (Xb Xt Xl Xr : ℚ → Option (ℚ × ℚ)) (Xi Eta : ℚ) :
    Option (ℚ × ℚ) := do
  let xb ← Xb Xi
  let xb0 ← Xb 0
  let xb1 ← Xb 1
  let xt ← Xt Xi
  let xt0 ← Xt 0
  let xt1 ← Xt 1
  let xl ← Xl Eta
  let xr ← Xr Eta
  pure ((1-Eta) * xb.1 + Eta * xt.1 + (1-Xi) * xl.1 + Xi * xr.1
          - (Xi * Eta * xt1.1 + Xi * (1-Eta) * xb1.1 + Eta * (1-Xi) * xt0.1
             + (1-Xi) * (1-Eta) * xb0.1),
        (1-Eta) * xb.2 + Eta * xt.2 + (1-Xi) * xl.2 + Xi * xr.2
          - (Xi * Eta * xt1.2 + Xi * (1-Eta) * xb1.2 + Eta * (1-Xi) * xt0.2
             + (1-Xi) * (1-Eta) * xb0.2))

/-- Sequence a list of possibly-failing results: the first failure aborts the
whole computation (the exception propagates), otherwise all results are
collected in order. -/
def collect {α : Type} : List (Option α) → Option (List α)
  | [] => some []
  | o :: rest => do
      let a ← o
      let as ← collect rest
      pure (a :: as)

/-- The whole mesh computation with possibly-failing curves: `none` as soon
as any node evaluation fails (the exception propagates; no partial mesh is
returned), otherwise `some` of the list-of-rows mesh. -/
def meshE (Xb Xt Xl Xr : ℚ → Option (ℚ × ℚ)) (nx nz : ℕ) :
    Option (List (List (ℚ × ℚ))) :=
  collect ((List.range nx).map (fun i =>
    collect ((List.range nz).map (fun j =>
      tfiNodeE Xb Xt Xl Xr (linspace01 nx i) (linspace01 nz j)))))

/-! ### Specification-side definition (for the refinement-style claim C1) -/

/-- The Gordon-Hall blending formula exactly as the specification words it,
for one scalar component `c`:
`c(ξ,η) = (1−η)·bottom_c(ξ) + η·top_c(ξ) + (1−ξ)·left_c(η) + ξ·right_c(η)
        − [ξ·η·top_c(1) + ξ·(1−η)·bottom_c(1) + η·(1−ξ)·top_c(0)
           + (1−ξ)·(1−η)·bottom_c(0)]`. -/
def gordonHallSpec (bottom top left right : ℚ → ℚ) (xi eta : ℚ) : ℚ :=
  (1 - eta) * bottom xi + eta * top xi + (1 - xi) * left eta
    + xi * right eta
    - (xi * eta * top 1 + xi * (1 - eta) * bottom 1
       + eta * (1 - xi) * top 0 + (1 - xi) * (1 - eta) * bottom 0)

/-- The four edges of the unit square, used by the identity scenarios:
bottom(ξ) = (ξ, 0). -/
def sqBottom : Curve := fun t => (t, 0)

/-- top(ξ) = (ξ, 1). -/
def sqTop : Curve := fun t => (t, 1)

/-- left(η) = (0, η). -/
def sqLeft : Curve := fun t => (0, t)

/-- right(η) = (1, η). -/
def sqRight : Curve := fun t => (1, t)

/-! ### Helper lemmas -/

lemma linspace01_of_two_le {n : ℕ} (hn : 2 ≤ n) (i : ℕ) :
    linspace01 n i = (i : ℚ) / ((n : ℚ) - 1) := by
  unfold linspace01
  rw [if_neg]
  omega

lemma linspace01_zero (n : ℕ) : linspace01 n 0 = 0 := by
  unfold linspace01
  split <;> simp

lemma linspace01_last {n : ℕ} (hn : 2 ≤ n) : linspace01 n (n - 1) = 1 := by
  rw [linspace01_of_two_le hn]
  have h1 : ((n - 1 : ℕ) : ℚ) = (n : ℚ) - 1 := by
    have h : (1 : ℕ) ≤ n := by omega
    push_cast [h]
    ring
  have h2 : (n : ℚ) - 1 ≠ 0 := by
    have h3 : (2 : ℚ) ≤ (n : ℚ) := by exact_mod_cast hn
    intro h4
    linarith
  rw [h1, div_self h2]

/-- C1: for nx, nz ≥ 2 the logical nodes are sampled uniformly
(ξ_i = i/(nx−1), η_j = j/(nz−1)), and mesh position (i, j) holds exactly the
value of the bilinear Gordon-Hall blending formula of the specification for
each component. -/
theorem mesh_matches_gordonHall (Xb Xt Xl Xr : Curve) (nx nz i j : ℕ)
    (hnx : 2 ≤ nx) (hnz : 2 ≤ nz) (hi : i < nx) (hj : j < nz) :
    linspace01 nx i = (i : ℚ) / ((nx : ℚ) - 1) ∧
    linspace01 nz j = (j : ℚ) / ((nz : ℚ) - 1) ∧
    meshX Xb Xt Xl Xr nx nz i j
      = gordonHallSpec (fun t => (Xb t).1) (fun t => (Xt t).1)
          (fun t => (Xl t).1) (fun t => (Xr t).1)
          ((i : ℚ) / ((nx : ℚ) - 1)) ((j : ℚ) / ((nz : ℚ) - 1)) ∧
    meshZ Xb Xt Xl Xr nx nz i j
      = gordonHallSpec (fun t => (Xb t).2) (fun t => (Xt t).2)
          (fun t => (Xl t).2) (fun t => (Xr t).2)
          ((i : ℚ) / ((nx : ℚ) - 1)) ((j : ℚ) / ((nz : ℚ) - 1)) := by
  refine ⟨linspace01_of_two_le hnx i, linspace01_of_two_le hnz j, ?_, ?_⟩ <;>
    simp [meshX, meshZ, tfiX, tfiZ, gordonHallSpec,
      linspace01_of_two_le hnx, linspace01_of_two_le hnz]

theorem mesh_matches_gordonHall_witness :
    (2 ≤ 3 ∧ 1 < 3 ∧ 2 < 3) ∧
    linspace01 3 1 = ((1 : ℕ) : ℚ) / (((3 : ℕ) : ℚ) - 1) :=
  ⟨by norm_num,
   (mesh_matches_gordonHall sqBottom sqTop sqLeft sqRight 3 3 1 2
      (by norm_num) (by norm_num) (by norm_num) (by norm_num)).1⟩

/-- C2: with the four unit-square edge curves, every sampled node maps to
itself (the output at (i, j) is (ξ_i, η_j)); in particular for nx = nz = 2
the output is exactly the 2×2 grid of unit-square corners. -/
theorem mesh_identity_on_unit_square (nx nz i j : ℕ)
    (hnx : 2 ≤ nx) (hnz : 2 ≤ nz) (hi : i < nx) (hj : j < nz) :
    meshX sqBottom sqTop sqLeft sqRight nx nz i j = (i : ℚ) / ((nx : ℚ) - 1) ∧
    meshZ sqBottom sqTop sqLeft sqRight nx nz i j = (j : ℚ) / ((nz : ℚ) - 1) ∧
    meshList sqBottom sqTop sqLeft sqRight 2 2
      = [[(0, 0), (0, 1)], [(1, 0), (1, 1)]] := by
  refine ⟨?_, ?_, ?_⟩
  · simp [meshX, tfiX, sqBottom, sqTop, sqLeft, sqRight,
      linspace01_of_two_le hnx, linspace01_of_two_le hnz]
    ring
  · simp [meshZ, tfiZ, sqBottom, sqTop, sqLeft, sqRight,
      linspace01_of_two_le hnx, linspace01_of_two_le hnz]
    ring
  · norm_num [meshList, List.range_succ, tfiNode, tfiX, tfiZ, linspace01,
      sqBottom, sqTop, sqLeft, sqRight]

theorem mesh_identity_on_unit_square_witness :
    meshX sqBottom sqTop sqLeft sqRight 3 3 1 2 = ((1 : ℕ) : ℚ) / (((3 : ℕ) : ℚ) - 1) :=
  (mesh_identity_on_unit_square 3 3 1 2
    (by norm_num) (by norm_num) (by norm_num) (by norm_num)).1

/-- C8: the mesh generation is deterministic — identical boundary curves and
identical resolutions produce identical outputs, both for the pure mesh and
for the imperative loop result; no external or mutable state enters. -/
theorem mesh_deterministic (Xb Xt Xl Xr Xb2 Xt2 Xl2 Xr2 : Curve)
    (nx nz nx2 nz2 : ℕ) (hb : Xb = Xb2) (ht : Xt = Xt2) (hl : Xl = Xl2)
    (hr : Xr = Xr2) (hx : nx = nx2) (hz : nz = nz2) :
    meshList Xb Xt Xl Xr nx nz = meshList Xb2 Xt2 Xl2 Xr2 nx2 nz2 ∧
    tfiLoop Xb Xt Xl Xr nx nz = tfiLoop Xb2 Xt2 Xl2 Xr2 nx2 nz2 := by
  subst hb ht hl hr hx hz
  exact ⟨rfl, rfl⟩

theorem mesh_deterministic_witness :
    meshList sqBottom sqTop sqLeft sqRight 20 20
      = meshList sqBottom sqTop sqLeft sqRight 20 20 :=
  (mesh_deterministic sqBottom sqTop sqLeft sqRight
    sqBottom sqTop sqLeft sqRight 20 20 20 20
    rfl rfl rfl rfl rfl rfl).1

lemma tfi_left_edge (Xb Xt Xl Xr : Curve) (e : ℚ) :
    tfiNode Xb Xt Xl Xr 0 e = Xl e := by
  unfold tfiNode tfiX tfiZ
  rw [Prod.ext_iff]
  constructor <;> ring_nf

lemma tfi_right_edge (Xb Xt Xl Xr : Curve) (e : ℚ) :
    tfiNode Xb Xt Xl Xr 1 e = Xr e := by
  unfold tfiNode tfiX tfiZ
  rw [Prod.ext_iff]
  constructor <;> ring_nf

lemma tfi_bottom_edge (Xb Xt Xl Xr : Curve) (h1 : Xb 0 = Xl 0)
    (h2 : Xb 1 = Xr 0) (s : ℚ) : tfiNode Xb Xt Xl Xr s 0 = Xb s := by
  unfold tfiNode tfiX tfiZ
  rw [Prod.ext_iff]
  constructor <;> (simp only [← h1, ← h2]; ring_nf)

lemma tfi_top_edge (Xb Xt Xl Xr : Curve) (h1 : Xt 0 = Xl 1)
    (h2 : Xt 1 = Xr 1) (s : ℚ) : tfiNode Xb Xt Xl Xr s 1 = Xt s := by
  unfold tfiNode tfiX tfiZ
  rw [Prod.ext_iff]
  constructor <;> (simp only [← h1, ← h2]; ring_nf)

/-- C9: for any boundary curves (corner-consistent or not), the four output
corner nodes are determined solely by the left and right curves:
(0,0) ↦ left(0), (0,nz−1) ↦ left(1), (nx−1,0) ↦ right(0),
(nx−1,nz−1) ↦ right(1) — the bottom/top contributions cancel exactly at
ξ, η ∈ {0,1}. -/
theorem mesh_corners_left_right (Xb Xt Xl Xr : Curve) (nx nz : ℕ)
    (hnx : 2 ≤ nx) (hnz : 2 ≤ nz) :
    (meshX Xb Xt Xl Xr nx nz 0 0, meshZ Xb Xt Xl Xr nx nz 0 0) = Xl 0 ∧
    (meshX Xb Xt Xl Xr nx nz 0 (nz - 1),
      meshZ Xb Xt Xl Xr nx nz 0 (nz - 1)) = Xl 1 ∧
    (meshX Xb Xt Xl Xr nx nz (nx - 1) 0,
      meshZ Xb Xt Xl Xr nx nz (nx - 1) 0) = Xr 0 ∧
    (meshX Xb Xt Xl Xr nx nz (nx - 1) (nz - 1),
      meshZ Xb Xt Xl Xr nx nz (nx - 1) (nz - 1)) = Xr 1 := by
  unfold meshX meshZ
  rw [linspace01_zero, linspace01_zero, linspace01_last hnx, linspace01_last hnz]
  exact ⟨tfi_left_edge Xb Xt Xl Xr 0, tfi_left_edge Xb Xt Xl Xr 1,
    tfi_right_edge Xb Xt Xl Xr 0, tfi_right_edge Xb Xt Xl Xr 1⟩

theorem mesh_corners_left_right_witness :
    (meshX sqBottom sqTop sqLeft sqRight 2 2 0 0,
      meshZ sqBottom sqTop sqLeft sqRight 2 2 0 0) = sqLeft 0 :=
  (mesh_corners_left_right sqBottom sqTop sqLeft sqRight 2 2
    (by norm_num) (by norm_num)).1

/-- C3: under the corner-consistency precondition the four output corner
nodes equal exactly the corresponding boundary-curve endpoint evaluations
(each corner agrees with both adjacent curves' endpoints). -/
theorem mesh_corner_exactness (Xb Xt Xl Xr : Curve) (nx nz : ℕ)
    (hnx : 2 ≤ nx) (hnz : 2 ≤ nz)
    (hbl : Xb 0 = Xl 0) (hbr : Xb 1 = Xr 0)
    (htl : Xt 0 = Xl 1) (htr : Xt 1 = Xr 1) :
    ((meshX Xb Xt Xl Xr nx nz 0 0, meshZ Xb Xt Xl Xr nx nz 0 0) = Xb 0 ∧
     (meshX Xb Xt Xl Xr nx nz 0 0, meshZ Xb Xt Xl Xr nx nz 0 0) = Xl 0) ∧
    ((meshX Xb Xt Xl Xr nx nz (nx - 1) 0,
        meshZ Xb Xt Xl Xr nx nz (nx - 1) 0) = Xb 1 ∧
     (meshX Xb Xt Xl Xr nx nz (nx - 1) 0,
        meshZ Xb Xt Xl Xr nx nz (nx - 1) 0) = Xr 0) ∧
    ((meshX Xb Xt Xl Xr nx nz 0 (nz - 1),
        meshZ Xb Xt Xl Xr nx nz 0 (nz - 1)) = Xt 0 ∧
     (meshX Xb Xt Xl Xr nx nz 0 (nz - 1),
        meshZ Xb Xt Xl Xr nx nz 0 (nz - 1)) = Xl 1) ∧
    ((meshX Xb Xt Xl Xr nx nz (nx - 1) (nz - 1),
        meshZ Xb Xt Xl Xr nx nz (nx - 1) (nz - 1)) = Xt 1 ∧
     (meshX Xb Xt Xl Xr nx nz (nx - 1) (nz - 1),
        meshZ Xb Xt Xl Xr nx nz (nx - 1) (nz - 1)) = Xr 1) := by
  obtain ⟨c1, c2, c3, c4⟩ := mesh_corners_left_right Xb Xt Xl Xr nx nz hnx hnz
  exact ⟨⟨by rw [c1, ← hbl], c1⟩, ⟨by rw [c3, ← hbr], c3⟩,
    ⟨by rw [c2, ← htl], c2⟩, ⟨by rw [c4, ← htr], c4⟩⟩

theorem mesh_corner_exactness_witness :
    (meshX sqBottom sqTop sqLeft sqRight 2 2 0 0,
      meshZ sqBottom sqTop sqLeft sqRight 2 2 0 0) = sqBottom 0 :=
  (mesh_corner_exactness sqBottom sqTop sqLeft sqRight 2 2
    (by norm_num) (by norm_num) rfl rfl rfl rfl).1.1

/-- C5: under the corner-consistency precondition the interpolation
reproduces the boundary curves exactly on the domain edges: row η = 0 equals
bottom(ξ_i), row η = 1 equals top(ξ_i), column ξ = 0 equals left(η_j),
column ξ = 1 equals right(η_j). -/
theorem mesh_boundary_reproduction (Xb Xt Xl Xr : Curve) (nx nz i j : ℕ)
    (hnx : 2 ≤ nx) (hnz : 2 ≤ nz) (hi : i < nx) (hj : j < nz)
    (hbl : Xb 0 = Xl 0) (hbr : Xb 1 = Xr 0)
    (htl : Xt 0 = Xl 1) (htr : Xt 1 = Xr 1) :
    (meshX Xb Xt Xl Xr nx nz i 0, meshZ Xb Xt Xl Xr nx nz i 0)
      = Xb (linspace01 nx i) ∧
    (meshX Xb Xt Xl Xr nx nz i (nz - 1), meshZ Xb Xt Xl Xr nx nz i (nz - 1))
      = Xt (linspace01 nx i) ∧
    (meshX Xb Xt Xl Xr nx nz 0 j, meshZ Xb Xt Xl Xr nx nz 0 j)
      = Xl (linspace01 nz j) ∧
    (meshX Xb Xt Xl Xr nx nz (nx - 1) j, meshZ Xb Xt Xl Xr nx nz (nx - 1) j)
      = Xr (linspace01 nz j) := by
  unfold meshX meshZ
  rw [linspace01_zero, linspace01_zero, linspace01_last hnx, linspace01_last hnz]
  exact ⟨tfi_bottom_edge Xb Xt Xl Xr hbl hbr _,
    tfi_top_edge Xb Xt Xl Xr htl htr _,
    tfi_left_edge Xb Xt Xl Xr _, tfi_right_edge Xb Xt Xl Xr _⟩

theorem mesh_boundary_reproduction_witness :
    (meshX sqBottom sqTop sqLeft sqRight 3 3 1 0,
      meshZ sqBottom sqTop sqLeft sqRight 3 3 1 0) = sqBottom (linspace01 3 1) :=
  (mesh_boundary_reproduction sqBottom sqTop sqLeft sqRight 3 3 1 1
    (by norm_num) (by norm_num) (by norm_num) (by norm_num)
    rfl rfl rfl rfl).1

lemma writeAll_apply (f : ℕ × ℕ → ℚ) (ord : List (ℕ × ℕ)) (A : ℕ × ℕ → ℚ)
    (p : ℕ × ℕ) :
    writeAll f ord A p = if p ∈ ord then f p else A p := by
  induction ord generalizing A with
  | nil => simp [writeAll]
  | cons q rest ih =>
      have h : writeAll f (q :: rest) A
          = writeAll f rest (Function.update A q (f q)) := rfl
      rw [h, ih]
      by_cases hp : p ∈ rest
      · simp [hp]
      · by_cases hpq : p = q
        · subst hpq
          simp [hp]
        · simp [hp, hpq, Function.update_noteq hpq]

lemma mem_rowMajor (nx nz i j : ℕ) :
    (i, j) ∈ rowMajor nx nz ↔ i < nx ∧ j < nz := by
  simp [rowMajor, List.mem_flatMap, List.mem_map, List.mem_range, Prod.ext_iff]

/-- C6: the outputs have shape (nx, nz) — the row list has length nx and
every row has length nz — and every position (i, j) with i < nx, j < nz is
visited (written) by the interpolation loop. -/
theorem mesh_shape (Xb Xt Xl Xr : Curve) (nx nz i j : ℕ)
    (hi : i < nx) (hj : j < nz) :
    (meshList Xb Xt Xl Xr nx nz).length = nx ∧
    (∀ row ∈ meshList Xb Xt Xl Xr nx nz, row.length = nz) ∧
    (i, j) ∈ rowMajor nx nz := by
  refine ⟨by simp [meshList], ?_, (mem_rowMajor nx nz i j).mpr ⟨hi, hj⟩⟩
  intro row hrow
  obtain ⟨i2, _, rfl⟩ := List.mem_map.mp hrow
  simp

theorem mesh_shape_witness :
    (meshList sqBottom sqTop sqLeft sqRight 20 20).length = 20 :=
  (mesh_shape sqBottom sqTop sqLeft sqRight 20 20 0 0
    (by norm_num) (by norm_num)).1

/-- C7: the nested loop with mutable accumulator arrays refines the pure
per-node mapping — the final value at (i, j) is exactly the per-node value
determined by xi[i], eta[j] and the four curves, and replaying the writes in
any order that visits the same index pairs produces the same final arrays. -/
theorem tfiLoop_refines_pure_map (Xb Xt Xl Xr : Curve) (nx nz i j : ℕ)
    (ord : List (ℕ × ℕ)) (hi : i < nx) (hj : j < nz)
    (hord : ord.Perm (rowMajor nx nz)) :
    (tfiLoop Xb Xt Xl Xr nx nz).1 (i, j) = meshX Xb Xt Xl Xr nx nz i j ∧
    (tfiLoop Xb Xt Xl Xr nx nz).2 (i, j) = meshZ Xb Xt Xl Xr nx nz i j ∧
    writeAll (fun p => meshX Xb Xt Xl Xr nx nz p.1 p.2) ord (fun _ => 0) (i, j)
      = meshX Xb Xt Xl Xr nx nz i j ∧
    writeAll (fun p => meshZ Xb Xt Xl Xr nx nz p.1 p.2) ord (fun _ => 0) (i, j)
      = meshZ Xb Xt Xl Xr nx nz i j := by
  have hm : (i, j) ∈ rowMajor nx nz := (mem_rowMajor nx nz i j).mpr ⟨hi, hj⟩
  have ho : (i, j) ∈ ord := hord.mem_iff.mpr hm
  simp [tfiLoop, writeAll_apply, hm, ho]

theorem tfiLoop_refines_pure_map_witness :
    (tfiLoop sqBottom sqTop sqLeft sqRight 2 2).1 (1, 1)
      = meshX sqBottom sqTop sqLeft sqRight 2 2 1 1 :=
  (tfiLoop_refines_pure_map sqBottom sqTop sqLeft sqRight 2 2 1 1
    ((rowMajor 2 2).reverse) (by norm_num) (by norm_num)
    ((rowMajor 2 2).reverse_perm)).1

/-- An affine map of the plane, T(x, z) = (a·x + b·z + e, c·x + d·z + f). -/
def affineMap (a b c d e f : ℚ) (p : ℚ × ℚ) : ℚ × ℚ :=
  (a * p.1 + b * p.2 + e, c * p.1 + d * p.2 + f)

/-- C10: the blending weights sum to 1, so the mesh generation commutes with
every affine map of the plane: composing all four curves with T and meshing
equals meshing first and applying T at each node. -/
theorem mesh_affine_equivariance (a b c d e f : ℚ) (Xb Xt Xl Xr : Curve)
    (nx nz i j : ℕ) (hnx : 2 ≤ nx) (hnz : 2 ≤ nz) (hi : i < nx) (hj : j < nz) :
    (meshX (fun t => affineMap a b c d e f (Xb t))
       (fun t => affineMap a b c d e f (Xt t))
       (fun t => affineMap a b c d e f (Xl t))
       (fun t => affineMap a b c d e f (Xr t)) nx nz i j,
     meshZ (fun t => affineMap a b c d e f (Xb t))
       (fun t => affineMap a b c d e f (Xt t))
       (fun t => affineMap a b c d e f (Xl t))
       (fun t => affineMap a b c d e f (Xr t)) nx nz i j)
      = affineMap a b c d e f
          (meshX Xb Xt Xl Xr nx nz i j, meshZ Xb Xt Xl Xr nx nz i j) := by
  unfold meshX meshZ affineMap tfiX tfiZ
  rw [Prod.ext_iff]
  constructor <;> ring_nf

theorem mesh_affine_equivariance_witness :
    (meshX (fun t => affineMap 2 0 0 2 1 1 (sqBottom t))
       (fun t => affineMap 2 0 0 2 1 1 (sqTop t))
       (fun t => affineMap 2 0 0 2 1 1 (sqLeft t))
       (fun t => affineMap 2 0 0 2 1 1 (sqRight t)) 2 2 1 1,
     meshZ (fun t => affineMap 2 0 0 2 1 1 (sqBottom t))
       (fun t => affineMap 2 0 0 2 1 1 (sqTop t))
       (fun t => affineMap 2 0 0 2 1 1 (sqLeft t))
       (fun t => affineMap 2 0 0 2 1 1 (sqRight t)) 2 2 1 1)
      = affineMap 2 0 0 2 1 1
          (meshX sqBottom sqTop sqLeft sqRight 2 2 1 1,
           meshZ sqBottom sqTop sqLeft sqRight 2 2 1 1) :=
  mesh_affine_equivariance 2 0 0 2 1 1 sqBottom sqTop sqLeft sqRight 2 2 1 1
    (by norm_num) (by norm_num) (by norm_num) (by norm_num)

/-- A total boundary curve lifted to the fallible model (never fails). -/
def liftCurve (C : Curve) : ℚ → Option (ℚ × ℚ) := fun t => some (C t)

lemma collect_of_none {α : Type} {l : List (Option α)} (h : none ∈ l) :
    collect l = none := by
  induction l with
  | nil => cases h
  | cons o rest ih =>
      cases h with
      | head => rfl
      | tail _ h2 =>
          cases o with
          | none => rfl
          | some a => simp [collect, ih h2]

/-- C4 counterexample: with nx = 1 (< 2) and total unit-square curves the
computation raises no error and returns a 1×2 mesh of nodes sampled at
ξ = 0 — no invalid-argument signalling exists in the code. -/
theorem meshE_nx_one_no_error :
    meshE (liftCurve sqBottom) (liftCurve sqTop) (liftCurve sqLeft)
      (liftCurve sqRight) 1 2 = some [[(0, 0), (0, 1)]] ∧
    meshE (liftCurve sqBottom) (liftCurve sqTop) (liftCurve sqLeft)
      (liftCurve sqRight) 1 2 ≠ none := by
  have h : meshE (liftCurve sqBottom) (liftCurve sqTop) (liftCurve sqLeft)
      (liftCurve sqRight) 1 2 = some [[(0, 0), (0, 1)]] := by
    norm_num [meshE, collect, List.range_succ, tfiNodeE, liftCurve, linspace01,
      sqBottom, sqTop, sqLeft, sqRight]
  exact ⟨h, by rw [h]; exact Option.some_ne_none _⟩

/-- C4 amended: a boundary curve that is undefined or raises at a required
sample point makes the whole computation fail with no partial mesh returned;
the resolutions are not validated (nx = 1 produces a degenerate mesh instead
of an error). -/
theorem meshE_none_of_curve_failure (Xb Xt Xl Xr : ℚ → Option (ℚ × ℚ))
    (nx nz i j : ℕ) (hi : i < nx) (hj : j < nz)
    (hfail : tfiNodeE Xb Xt Xl Xr (linspace01 nx i) (linspace01 nz j) = none) :
    meshE Xb Xt Xl Xr nx nz = none := by
  unfold meshE
  apply collect_of_none
  have hrow : collect ((List.range nz).map (fun j2 =>
      tfiNodeE Xb Xt Xl Xr (linspace01 nx i) (linspace01 nz j2))) = none := by
    apply collect_of_none
    exact List.mem_map.mpr ⟨j, List.mem_range.mpr hj, hfail⟩
  exact List.mem_map.mpr ⟨i, List.mem_range.mpr hi, hrow⟩

theorem meshE_none_of_curve_failure_witness :
    meshE (fun _ => none) (liftCurve sqTop) (liftCurve sqLeft)
      (liftCurve sqRight) 2 2 = none :=
  meshE_none_of_curve_failure (fun _ => none) (liftCurve sqTop)
    (liftCurve sqLeft) (liftCurve sqRight) 2 2 0 0
    (by norm_num) (by norm_num) rfl
